import Mathlib

/-!
# Verification of the vsc-dex-mapping DEX read model and router

Shallow embedding of the Go sources:
* `services/indexer` read model (`DexReadModel` and its event handlers and
  queries, from the indexer source file),
* `services/router` (`Service.ExecuteSwap` / `Service.ComputeRoute`),
* the router's `IndexerPoolQuerier` fee conversion.

Machine integers are modelled as `ℕ` / `ℤ` with explicit `% 2 ^ 64`
wrapping where Go's `uint64` / `int64` arithmetic can wrap.  Go `float64`
values (pool fees and position shares) are modelled exactly by `GoFloat.F64`,
a mantissa–exponent representation of non-negative IEEE-754 binary64 values,
with correctly-rounded (round to nearest, ties to even) operations, faithful
on the normal range of binary64, which covers every quantity appearing here.
Go maps are modelled as association lists (first-match lookup,
replace-or-append update); no verified property depends on map iteration
order.
-/

set_option maxRecDepth 200000

namespace GoFloat

/-- Fuel-bounded base-2 logarithm on naturals: `natLog2Fuel f n = ⌊log₂ n⌋`
whenever `n < 2 ^ f` (and `1 ≤ n`). The fuel makes the recursion structural. -/
def natLog2Fuel : ℕ → ℕ → ℕ
  | 0, _ => 0
  | f + 1, n => if n ≤ 1 then 0 else natLog2Fuel f (n / 2) + 1

/-- `⌊log₂ n⌋` for `1 ≤ n` (the fuel `n` always suffices since `n < 2 ^ n`). -/
def natLog2 (n : ℕ) : ℕ := natLog2Fuel n n

/-- `⌊log₂ (p / q)⌋` for `p, q ≥ 1`: start from the difference of the two
integer logarithms, which is off by at most one, and correct it by one
exact comparison. -/
def ratFloorLog2 (p q : ℕ) : ℤ :=
  let E0 : ℤ := (natLog2 p : ℤ) - natLog2 q
  if 0 ≤ E0 then (if q * 2 ^ E0.toNat ≤ p then E0 else E0 - 1)
  else (if q ≤ p * 2 ^ (-E0).toNat then E0 else E0 - 1)

/-- A non-negative IEEE-754 binary64 value, represented exactly as
`num * 2 ^ exp`. Values produced by `roundRat` are canonical (`num = 0`, or
`2 ^ 52 ≤ num < 2 ^ 53`), so structural equality is value equality. -/
structure F64 where
  num : ℕ
  exp : ℤ
deriving Repr, DecidableEq

/-- Round `n / d` to the nearest integer, ties to even. -/
def roundHalfEvenNat (n d : ℕ) : ℕ :=
  let q := n / d
  let r := n % d
  if 2 * r < d then q
  else if d < 2 * r then q + 1
  else if q % 2 = 0 then q else q + 1

/-- Round the non-negative rational `p / q` to the nearest binary64 value
(53-bit significand, round to nearest, ties to even). Faithful on the
normal range of binary64. -/
def roundRat (p q : ℕ) : F64 :=
  if p = 0 then ⟨0, 0⟩
  else if q = 0 then ⟨0, 0⟩
  else
    let E : ℤ := ratFloorLog2 p q
    let s : ℤ := 52 - E
    let m := if 0 ≤ s then roundHalfEvenNat (p * 2 ^ s.toNat) q
             else roundHalfEvenNat p (q * 2 ^ (-s).toNat)
    if m = 2 ^ 53 then ⟨2 ^ 52, -s + 1⟩ else ⟨m, -s⟩

/-- The binary64 value of a `uint64` (Go's `float64(n)` conversion,
correctly rounded). -/
def f64ofNat (n : ℕ) : F64 := roundRat n 1

/-- IEEE binary64 multiplication (round to nearest, ties to even). -/
def f64mul (a b : F64) : F64 :=
  let E := a.exp + b.exp
  if 0 ≤ E then roundRat (a.num * b.num * 2 ^ E.toNat) 1
  else roundRat (a.num * b.num) (2 ^ (-E).toNat)

/-- IEEE binary64 division (round to nearest, ties to even). -/
def f64div (a b : F64) : F64 :=
  let E := a.exp - b.exp
  if 0 ≤ E then roundRat (a.num * 2 ^ E.toNat) b.num
  else roundRat a.num (b.num * 2 ^ (-E).toNat)

/-- Go's `uint64(x)` conversion of a non-negative binary64 value:
truncation toward zero. -/
def f64toNatTrunc (a : F64) : ℕ :=
  if 0 ≤ a.exp then a.num * 2 ^ a.exp.toNat else a.num / 2 ^ (-a.exp).toNat

end GoFloat

namespace GoInt

/-- Go `uint64` addition: wraps modulo `2 ^ 64`. -/
def uadd (a b : ℕ) : ℕ := (a + b) % 2 ^ 64

/-- Go `uint64` subtraction: wraps modulo `2 ^ 64` (no clamping). -/
def usub (a b : ℕ) : ℕ := (((a : ℤ) - b).emod (2 ^ 64)).toNat

/-- Go `uint64(int64(r) + d)` for `r : uint64`, `d : int64`: the two
two's-complement reinterpretations and the wrapping `int64` addition
compose to addition modulo `2 ^ 64` on the underlying values. -/
def addWrapI64 (r : ℕ) (d : ℤ) : ℕ := (((r : ℤ) + d).emod (2 ^ 64)).toNat

end GoInt

namespace Indexer

open GoFloat GoInt

/-- Go `type PoolInfo struct` of the indexer package (declaration not in the
provided sources; fields and their types reconstructed from their uses in
the read model — `uint64` reserves and total supply, `float64` fee — and
from the indexer REST API documentation). -/
structure PoolInfo where
  ID : String
  Asset0 : String
  Asset1 : String
  Fee : F64
  Reserve0 : ℕ
  Reserve1 : ℕ
  TotalSupply : ℕ
deriving Repr, DecidableEq

/-- Go `type LiquidityPosition struct` (user, pool, LP amount `uint64`,
share `float64`). -/
structure LiquidityPosition where
  User : String
  PoolID : String
  Amount : ℕ
  Share : F64
deriving Repr, DecidableEq

/-- The type-specific `Details` payload stored in a transaction record
(Go `map[string]interface{}`, one field set per event type). -/
inductive TxDetails where
  | blank : TxDetails
  | poolCreated (asset0 asset1 : String) (fee : F64) : TxDetails
  | deposit (amount0 amount1 lp_tokens : ℕ) : TxDetails
  | withdrawal (amount0 amount1 lp_tokens : ℕ) : TxDetails
  | swap (amount0 amount1 : ℤ) (amount_in amount_out : ℕ)
      (asset_in asset_out : String) : TxDetails
deriving Repr, DecidableEq

/-- Go `type TransactionInfo struct` (`Typ` models the Go field `Type`,
which is a reserved word in Lean). -/
structure TransactionInfo where
  ID : String
  Typ : String
  PoolID : String
  User : String
  BlockHeight : ℕ
  Timestamp : String
  Details : TxDetails
deriving Repr, DecidableEq

/-- The argument payload of a VSC event, modelled post-JSON-decoding: a
payload either decodes under the schema demanded by the event's method,
carried as the matching constructor, or fails to decode for it
(`malformed`, or a constructor for a different schema). -/
inductive EventArgs where
  | poolCreated (pool_id asset0 asset1 : String) (fee : F64) : EventArgs
  | liquidityAdded (pool_id user : String) (amount0 amount1 lp_tokens : ℕ) :
      EventArgs
  | liquidityRemoved (pool_id user : String) (amount0 amount1 lp_tokens : ℕ) :
      EventArgs
  | swapExecuted (pool_id user : String) (amount0 amount1 : ℤ)
      (amount_in amount_out : ℕ) (asset_in asset_out : String) : EventArgs
  | malformed : EventArgs
deriving Repr, DecidableEq

/-- A VSC contract event (`contract`, `method`, argument payload, block
height, transaction id), as consumed by `DexReadModel.HandleEvent`. -/
structure VSCEvent where
  Contract : String
  Method : String
  Args : EventArgs
  TxID : String
  BlockHeight : ℕ
deriving Repr, DecidableEq

/-- First-match lookup in an association list (Go map read). -/
def assocGet {α : Type} : List (String × α) → String → Option α
  | [], _ => none
  | p :: ps, k => if p.1 = k then some p.2 else assocGet ps k

/-- Replace-or-append update of an association list (Go map write). -/
def assocSet {α : Type} : List (String × α) → String → α → List (String × α)
  | [], k, v => [(k, v)]
  | p :: ps, k, v => if p.1 = k then (k, v) :: ps else p :: assocSet ps k v

/-- Go `type DexReadModel struct`: pools and positions maps plus the bounded
transaction history (the `sync.RWMutex` has no value-level content). -/
structure DexReadModel where
  pools : List (String × PoolInfo)
  transactions : List TransactionInfo
  positions : List (String × List LiquidityPosition)
deriving Repr, DecidableEq

/-- `NewDexReadModel()`: empty maps, empty history. -/
def emptyModel : DexReadModel := ⟨[], [], []⟩

/-- The positions slice stored for a pool (`dm.positions[poolID]`,
zero value `[]` when absent). -/
def positionsOf (dm : DexReadModel) (poolID : String) : List LiquidityPosition :=
  (assocGet dm.positions poolID).getD []

/-- Go `float64(amount) / float64(totalLP) * 100` (share percentage),
with each operation correctly rounded to binary64. -/
def goShare (amount totalLP : ℕ) : F64 :=
  f64mul (f64div (f64ofNat amount) (f64ofNat totalLP)) (f64ofNat 100)

/-- The in-place update of the first position whose `User` matches, from
`updateLiquidityPosition`: add wraps like `uint64`, remove is clamped at
zero (`if pos.Amount > amount` in the source). Returns `none` when no
position matches (`found` stays false). -/
def updateFirstPos (user : String) (amount : ℕ) (isAdd : Bool) :
    List LiquidityPosition → Option (List LiquidityPosition)
  | [] => none
  | p :: ps =>
    if p.User = user then
      some ({ p with
        Amount := if isAdd then uadd p.Amount amount
                  else if amount < p.Amount then p.Amount - amount else 0 } :: ps)
    else
      (updateFirstPos user amount isAdd ps).map (p :: ·)

/-- `(*DexReadModel).updateLiquidityPosition`: update or create the user's
position, then recompute every share in the pool from the pool's current
`TotalSupply`. -/
def updateLiquidityPosition (dm : DexReadModel) (poolID user : String)
    (amount : ℕ) (isAdd : Bool) : DexReadModel :=
  let positions := positionsOf dm poolID
  let positions :=
    match updateFirstPos user amount isAdd positions with
    | some ps => ps
    | none =>
      if isAdd ∧ 0 < amount then
        positions ++ [(⟨user, poolID, amount, ⟨0, 0⟩⟩ : LiquidityPosition)]
      else positions
  let totalLP := ((assocGet dm.pools poolID).map PoolInfo.TotalSupply).getD 0
  let positions := positions.map fun (p : LiquidityPosition) =>
    { p with Share := if 0 < totalLP then goShare p.Amount totalLP else ⟨0, 0⟩ }
  { dm with positions := assocSet dm.positions poolID positions }

/-- The transaction record built by `handleDexRouterEvent` for one event.
It depends only on the event (never on the ledger state); the zero record
(`Type`, `PoolID`, `User` empty) is also produced for a method the switch
does not recognise. -/
def txRecordOf (ev : VSCEvent) : TransactionInfo :=
  let base : TransactionInfo :=
    { ID := ev.TxID, Typ := "", PoolID := "", User := "",
      BlockHeight := ev.BlockHeight, Timestamp := "", Details := .blank }
  match ev.Method, ev.Args with
  | "pool_created", .poolCreated pid a0 a1 fee =>
    { base with Typ := "pool_created", PoolID := pid,
                Details := .poolCreated a0 a1 fee }
  | "liquidity_added", .liquidityAdded pid user a0 a1 lp =>
    { base with Typ := "deposit", PoolID := pid, User := user,
                Details := .deposit a0 a1 lp }
  | "liquidity_removed", .liquidityRemoved pid user a0 a1 lp =>
    { base with Typ := "withdrawal", PoolID := pid, User := user,
                Details := .withdrawal a0 a1 lp }
  | "swap_executed", .swapExecuted pid user a0 a1 ain aout sin sout =>
    { base with Typ := "swap", PoolID := pid, User := user,
                Details := .swap a0 a1 ain aout sin sout }
  | _, _ => base

/-- The reserve update a `swap_executed` event applies to a pool: the legacy
signed-delta encoding whenever `amount0` or `amount1` is non-zero, otherwise
the directional encoding, choosing the side by comparing `asset_in` with the
pool's `Asset0` (any other value falls into the `Asset1` branch, as in the
source's bare `else`). -/
def swapReserveUpdate (pool : PoolInfo) (a0 a1 : ℤ) (ain aout : ℕ)
    (assetIn : String) : PoolInfo :=
  if a0 ≠ 0 ∨ a1 ≠ 0 then
    { pool with
        Reserve0 := addWrapI64 pool.Reserve0 a0,
        Reserve1 := addWrapI64 pool.Reserve1 a1 }
  else if assetIn = pool.Asset0 then
    { pool with
        Reserve0 := uadd pool.Reserve0 ain,
        Reserve1 := usub pool.Reserve1 aout }
  else
    { pool with
        Reserve1 := uadd pool.Reserve1 ain,
        Reserve0 := usub pool.Reserve0 aout }

/-- The pool/position state transition of `handleDexRouterEvent` (everything
except the history append): `none` models a `json.Unmarshal` error, which
the Go code returns before any state mutation. A recognised method whose
payload does not decode under that method's schema fails; an unrecognised
method leaves the state unchanged. -/
def dexStepState (dm : DexReadModel) (ev : VSCEvent) : Option DexReadModel :=
  match ev.Method, ev.Args with
  | "pool_created", .poolCreated pid a0 a1 fee =>
    some { dm with pools := assocSet dm.pools pid (⟨pid, a0, a1, fee, 0, 0, 0⟩ : PoolInfo) }
  | "pool_created", _ => none
  | "liquidity_added", .liquidityAdded pid user a0 a1 lp =>
    some (match assocGet dm.pools pid with
      | some pool =>
        let lpTokens := if lp = 0 then a0 else lp
        let pool := { pool with
          Reserve0 := uadd pool.Reserve0 a0,
          Reserve1 := uadd pool.Reserve1 a1,
          TotalSupply := uadd pool.TotalSupply lpTokens }
        let dm := { dm with pools := assocSet dm.pools pid pool }
        if user ≠ "" then updateLiquidityPosition dm pid user lpTokens true
        else dm
      | none => dm)
  | "liquidity_added", _ => none
  | "liquidity_removed", .liquidityRemoved pid user a0 a1 lp =>
    some (match assocGet dm.pools pid with
      | some pool =>
        let pool := { pool with
          Reserve0 := usub pool.Reserve0 a0,
          Reserve1 := usub pool.Reserve1 a1,
          TotalSupply := usub pool.TotalSupply lp }
        let dm := { dm with pools := assocSet dm.pools pid pool }
        updateLiquidityPosition dm pid user lp false
      | none => dm)
  | "liquidity_removed", _ => none
  | "swap_executed", .swapExecuted pid _ a0 a1 ain aout sIn _ =>
    some (match assocGet dm.pools pid with
      | some pool =>
        { dm with pools := assocSet dm.pools pid (swapReserveUpdate pool a0 a1 ain aout sIn) }
      | none => dm)
  | "swap_executed", _ => none
  | _, _ => some dm

/-- Append a record to the history, keeping only the last 1000
(`if len(dm.transactions) > 1000 { dm.transactions = dm.transactions[1:] }`). -/
def trimAppend (l : List TransactionInfo) (x : TransactionInfo) :
    List TransactionInfo :=
  let t := l ++ [x]
  if 1000 < t.length then t.tail else t

/-- `(*DexReadModel).handleDexRouterEvent`: state transition, then the
history append (which happens for every non-erroring event, including
unrecognised methods). -/
def handleDexRouterEvent (dm : DexReadModel) (ev : VSCEvent) :
    Option DexReadModel :=
  (dexStepState dm ev).map fun dm2 =>
    { dm2 with transactions := trimAppend dm2.transactions (txRecordOf ev) }

/-- `(*DexReadModel).HandleEvent`: only events of the `dex-router` contract
are processed; all others are a complete no-op with nil error. -/
def HandleEvent (dm : DexReadModel) (ev : VSCEvent) : Option DexReadModel :=
  if ev.Contract = "dex-router" then handleDexRouterEvent dm ev else some dm

/-- One event of an ingested stream: on error the event is dropped and the
state unchanged (the Go caller logs the error and continues; the handler
returns before mutating anything). -/
def applyEvent (dm : DexReadModel) (ev : VSCEvent) : DexReadModel :=
  (HandleEvent dm ev).getD dm

/-- Apply a delivered event sequence in order. -/
def applyEvents (dm : DexReadModel) (evs : List VSCEvent) : DexReadModel :=
  evs.foldl applyEvent dm

/-- `QueryPools`: all pools (map iteration order abstracted as list order). -/
def QueryPools (dm : DexReadModel) : List PoolInfo := dm.pools.map (·.2)

/-- `GetPool`: lookup by id. -/
def GetPool (dm : DexReadModel) (poolID : String) : Option PoolInfo :=
  assocGet dm.pools poolID

/-- `QueryLiquidityPositions`: the positions for a pool (the Go code returns
a fresh copy of the slice; values are identical). -/
def QueryLiquidityPositions (dm : DexReadModel) (poolID : String) :
    List LiquidityPosition :=
  (assocGet dm.positions poolID).getD []

/-- `GetTransaction`: linear scan for the first record with the id. -/
def GetTransaction (dm : DexReadModel) (txID : String) :
    Option TransactionInfo :=
  dm.transactions.find? (fun tx => tx.ID = txID)

/-- The filtering loop of `QueryTransactions`: newest first, both filters,
stop once `limit` records are collected (the length test runs after each
append, exactly as in the source). -/
def txQueryLoop (poolID txType : String) (limit : ℤ)
    (acc : List TransactionInfo) : List TransactionInfo → List TransactionInfo
  | [] => acc
  | tx :: rest =>
    if (poolID ≠ "" ∧ tx.PoolID ≠ poolID) ∨ (txType ≠ "" ∧ tx.Typ ≠ txType) then
      txQueryLoop poolID txType limit acc rest
    else
      let acc := acc ++ [tx]
      if limit ≤ (acc.length : ℤ) then acc else txQueryLoop poolID txType limit acc rest

/-- `QueryTransactions`: most-recent-first records matching both filters,
up to `limit`. -/
def QueryTransactions (dm : DexReadModel) (poolID txType : String)
    (limit : ℤ) : List TransactionInfo :=
  txQueryLoop poolID txType limit [] dm.transactions.reverse

/-- One pass of the in-place double loop of `QueryRichList`
(`for j := i+1; ...; if positions[i].Amount < positions[j].Amount { swap }`):
returns the element left in slot `i` (the running maximum) and the slots
after `i` as the loop leaves them. -/
def selectPass : LiquidityPosition → List LiquidityPosition →
    LiquidityPosition × List LiquidityPosition
  | cur, [] => (cur, [])
  | cur, y :: ys =>
    if cur.Amount < y.Amount then
      let r := selectPass y ys
      (r.1, cur :: r.2)
    else
      let r := selectPass cur ys
      (r.1, y :: r.2)

/-- The full in-place exchange sort of `QueryRichList` (amount descending;
not stable). Fuel-structured; `selectPass` preserves length, so fuel equal
to the list length always suffices. -/
def exchangeSortGo : ℕ → List LiquidityPosition → List LiquidityPosition
  | 0, l => l
  | _ + 1, [] => []
  | f + 1, x :: xs =>
    let r := selectPass x xs
    r.1 :: exchangeSortGo f r.2

/-- The sort performed by `QueryRichList` on the stored positions slice. -/
def exchangeSort (l : List LiquidityPosition) : List LiquidityPosition :=
  exchangeSortGo l.length l

/-- `QueryRichList`: sorts the pool's stored positions slice **in place**
(the sort runs on the slice obtained from the map, so the mutation is
visible through `dm.positions`; the returned state records this), then
returns a copy of the `[offset, offset+limit)` slice, with `end` clamped to
the length and an empty result for `offset ≥ len`. Parameters are Go `int`s;
they are modelled on the non-negative domain the HTTP transport guarantees
(negative values would make the Go slice expression panic). -/
def QueryRichList (dm : DexReadModel) (poolID : String) (offset limit : ℕ) :
    DexReadModel × List LiquidityPosition :=
  match assocGet dm.positions poolID with
  | none => (dm, [])
  | some positions =>
    let sorted := exchangeSort positions
    let dm2 := { dm with positions := assocSet dm.positions poolID sorted }
    if sorted.length ≤ offset then (dm2, [])
    else (dm2, ((sorted.take (min (offset + limit) sorted.length)).drop offset))

/-- Sum of the LP amounts of a position list (the quantity the
total-supply invariant speaks about). -/
def sumAmounts (ps : List LiquidityPosition) : ℕ :=
  (ps.map LiquidityPosition.Amount).sum

end Indexer

namespace Router

open GoFloat

/-- `type Intent struct` of `services/router/router.go` (`Typ` models the Go
field `Type`; `Args` is a small string map, modelled as a pair list). -/
structure Intent where
  Typ : String
  Args : List (String × String)
deriving Repr, DecidableEq

/-- `type SwapParams struct`. -/
structure SwapParams where
  Sender : String
  AmountIn : ℤ
  AssetIn : String
  AssetOut : String
  MinAmountOut : ℤ
  MaxSlippage : ℕ
  MiddleOutRatio : F64
  Beneficiary : String
  RefBps : ℕ
deriving Repr, DecidableEq

/-- `type SwapResult struct`. -/
structure SwapResult where
  Success : Bool
  AmountOut : ℤ
  Fee : ℤ
  Route : List String
  ErrorMessage : String
deriving Repr, DecidableEq

/-- The JSON payload `ExecuteSwap` marshals for the DEX contract, modelled
structurally (the optional fields are present exactly under the conditions
of the source). Marshalling of this string/integer map cannot fail, so the
marshal-error branch of the source is unreachable. -/
structure SwapPayload where
  type : String
  version : String
  asset_in : String
  asset_out : String
  recipient : String
  min_amount_out : ℤ
  slippage_bps : Option ℤ
  beneficiary : Option String
  ref_bps : Option ℤ
deriving Repr, DecidableEq

/-- The effect of the injected `DEXExecutor.ExecuteDexOperationWithIntents`
collaborator: given operation type, payload and intents it either succeeds
(`none`) or fails with an error message (`some msg`). -/
def Executor : Type := String → SwapPayload → List Intent → Option String

/-- `(*Service).ExecuteSwap`: same-asset requests are rejected before the
payload is built or the executor consulted; otherwise the payload and the
`transfer.allow` intent are assembled and the executor invoked. The Go
function returns a nil error on every path. -/
def ExecuteSwap (exec : Executor) (params : SwapParams) : SwapResult :=
  if params.AssetIn = params.AssetOut then
    { Success := false, AmountOut := 0, Fee := 0, Route := [],
      ErrorMessage := "cannot swap asset to itself" }
  else
    let payload : SwapPayload :=
      { type := "swap", version := "1.0.0", asset_in := params.AssetIn,
        asset_out := params.AssetOut, recipient := params.Sender,
        min_amount_out := params.MinAmountOut,
        slippage_bps := if 0 < params.MaxSlippage then some (params.MaxSlippage : ℤ) else none,
        beneficiary := if params.Beneficiary ≠ "" then some params.Beneficiary else none,
        ref_bps := if 0 < params.RefBps then some (params.RefBps : ℤ) else none }
    let intents : List Intent :=
      [⟨"transfer.allow", [("limit", toString params.AmountIn), ("token", params.AssetIn)]⟩]
    match exec "execute" payload intents with
    | some msg =>
      { Success := false, AmountOut := 0, Fee := 0, Route := [],
        ErrorMessage := "swap execution failed: " ++ msg }
    | none =>
      { Success := true, AmountOut := params.MinAmountOut, Fee := 0,
        Route := ["direct"], ErrorMessage := "" }

/-- `(*Service).ComputeRoute` simply delegates to `ExecuteSwap`. -/
def ComputeRoute (exec : Executor) (params : SwapParams) : SwapResult :=
  ExecuteSwap exec params

/-- `type IndexerPoolInfo struct` of `services/router` (pool snapshot as
reported by the indexer HTTP API; the fee is a decoded `float64` decimal
percentage). -/
structure IndexerPoolInfo where
  ID : String
  Asset0 : String
  Asset1 : String
  Reserve0 : ℕ
  Reserve1 : ℕ
  Fee : F64
  TotalSupply : ℕ
deriving Repr, DecidableEq

/-- `type PoolInfoWithReserves struct` as assembled by the querier
(fee already in basis points). -/
structure PoolInfoWithReserves where
  ContractId : String
  Asset0 : String
  Asset1 : String
  Reserve0 : ℕ
  Reserve1 : ℕ
  Fee : ℕ
deriving Repr, DecidableEq

/-- The fee conversion of `IndexerPoolQuerier.GetPoolByID` /
`GetPoolsByAsset`: `feeBps := uint64(indexerPool.Fee * 100)` — a binary64
multiplication followed by Go's truncating float-to-uint64 conversion. -/
def feeToBps (fee : F64) : ℕ := f64toNatTrunc (f64mul fee (f64ofNat 100))

/-- The indexer-pool-to-router-pool conversion shared by `GetPoolByID` and
`GetPoolsByAsset`. -/
def convertIndexerPool (p : IndexerPoolInfo) : PoolInfoWithReserves :=
  { ContractId := p.ID, Asset0 := p.Asset0, Asset1 := p.Asset1,
    Reserve0 := p.Reserve0, Reserve1 := p.Reserve1, Fee := feeToBps p.Fee }

/-- The pool-list filtering of `GetPoolsByAsset` (pools whose `asset0` or
`asset1` equals the requested asset, each converted). -/
def GetPoolsByAsset (pools : List IndexerPoolInfo) (asset : String) :
    List PoolInfoWithReserves :=
  (pools.filter (fun p => p.Asset0 = asset ∨ p.Asset1 = asset)).map convertIndexerPool

/-- The binary64 value nearest to the decimal fraction `n / 10 ^ k` — the
result of Go's (correctly rounding) JSON decoding of such a decimal
literal into a `float64`. -/
def jsonF64 (n : ℕ) (k : ℕ) : F64 := roundRat n (10 ^ k)

end Router

namespace Indexer

/-- Concrete pool-creation event used by the concrete check theorems. -/
def exPool : VSCEvent :=
  ⟨"dex-router", "pool_created", .poolCreated "p" "HBD" "HIVE" ⟨0, 0⟩, "t1", 1⟩

/-- Withdraw 5 units of asset0 from pool `p` (whose reserves are zero). -/
def exRemove : VSCEvent :=
  ⟨"dex-router", "liquidity_removed", .liquidityRemoved "p" "u" 5 0 0, "t2", 2⟩

/-- Directional swap taking 7 units of `HIVE` out of pool `p`. -/
def exSwapDir : VSCEvent :=
  ⟨"dex-router", "swap_executed", .swapExecuted "p" "" 0 0 0 7 "HBD" "HIVE", "t3", 3⟩

/-- Deposit with an empty user: LP tokens are minted but no position is
recorded. -/
def exAddNoUser : VSCEvent :=
  ⟨"dex-router", "liquidity_added", .liquidityAdded "p" "" 10 10 0, "t4", 4⟩

/-- Deposit of 100 by user `b`. -/
def exAddB100 : VSCEvent :=
  ⟨"dex-router", "liquidity_added", .liquidityAdded "p" "b" 100 0 0, "t5", 5⟩

/-- Deposit of 100 by user `a`. -/
def exAddA100 : VSCEvent :=
  ⟨"dex-router", "liquidity_added", .liquidityAdded "p" "a" 100 0 0, "t6", 6⟩

/-- Deposit of 50 by user `b`. -/
def exAddB50 : VSCEvent :=
  ⟨"dex-router", "liquidity_added", .liquidityAdded "p" "b" 50 0 0, "t7", 7⟩

/-- An event of the DEX router contract whose method the switch does not
recognise. -/
def exBogus : VSCEvent :=
  ⟨"dex-router", "bogus_method", .malformed, "t9", 9⟩

/-- An event scoped to a different contract. -/
def exForeign : VSCEvent :=
  ⟨"btc-mapping", "pool_created", .poolCreated "p" "A" "B" ⟨0, 0⟩, "t10", 10⟩

/-- A `liquidity_added` event whose payload does not decode. -/
def exMalformed : VSCEvent :=
  ⟨"dex-router", "liquidity_added", .malformed, "t11", 11⟩

/-- Pool `p` with two equal-amount positions, stored in order `b`, `a`
(reachable: created, then `b` deposits 100, then `a` deposits 100). -/
def dmTie : DexReadModel := applyEvents emptyModel [exPool, exAddB100, exAddA100]

/-- Pool `p` with positions stored in ascending-amount order `b:50`, `a:100`
(reachable: created, then `b` deposits 50, then `a` deposits 100). -/
def dmAsc : DexReadModel := applyEvents emptyModel [exPool, exAddB50, exAddA100]

/-- The state holding just the pool created by `exPool`. -/
def dmPoolOnly : DexReadModel := applyEvents emptyModel [exPool]

/-- The binary64 value `50.0` (the share of each of two equal positions). -/
def shareFifty : GoFloat.F64 := ⟨7036874417766400, -47⟩

end Indexer

namespace Indexer

theorem assocGet_assocSet_self {α : Type} (l : List (String × α)) (k : String)
    (v : α) : assocGet (assocSet l k v) k = some v := by
  induction l with
  | nil => simp [assocGet, assocSet]
  | cons p ps ih =>
    by_cases h : p.1 = k
    · simp [assocGet, assocSet, h]
    · simp [assocGet, assocSet, h, ih]

theorem assocGet_assocSet_ne {α : Type} (l : List (String × α)) (k k2 : String)
    (v : α) (hne : k ≠ k2) : assocGet (assocSet l k v) k2 = assocGet l k2 := by
  induction l with
  | nil => simp [assocGet, assocSet, hne]
  | cons p ps ih =>
    by_cases h : p.1 = k
    · have hp2 : p.1 ≠ k2 := by rw [h]; exact hne
      simp [assocSet, h, assocGet, hne, hp2]
    · by_cases h2 : p.1 = k2
      · simp [assocSet, h, assocGet, h2, Ne.symm hne]
      · simp [assocSet, h, assocGet, h2, ih]

theorem selectPass_length (cur : LiquidityPosition)
    (l : List LiquidityPosition) : (selectPass cur l).2.length = l.length := by
  induction l generalizing cur with
  | nil => simp [selectPass]
  | cons y ys ih =>
    by_cases h : cur.Amount < y.Amount
    · simp [selectPass, h, ih]
    · simp [selectPass, h, ih]

theorem selectPass_fst_ge (cur : LiquidityPosition)
    (l : List LiquidityPosition) :
    cur.Amount ≤ (selectPass cur l).1.Amount := by
  induction l generalizing cur with
  | nil => simp [selectPass]
  | cons y ys ih =>
    by_cases h : cur.Amount < y.Amount
    · simpa [selectPass, h] using le_trans h.le (ih y)
    · simpa [selectPass, h] using ih cur

theorem selectPass_snd_le (cur : LiquidityPosition)
    (l : List LiquidityPosition) :
    ∀ p ∈ (selectPass cur l).2, p.Amount ≤ (selectPass cur l).1.Amount := by
  induction l generalizing cur with
  | nil => simp [selectPass]
  | cons y ys ih =>
    by_cases h : cur.Amount < y.Amount
    · simp only [selectPass, if_pos h]
      intro p hp
      rcases List.mem_cons.mp hp with rfl | hp
      · exact le_trans h.le (selectPass_fst_ge y ys)
      · exact ih y p hp
    · simp only [selectPass, if_neg h]
      intro p hp
      rcases List.mem_cons.mp hp with rfl | hp
      · exact le_trans (not_lt.mp h) (selectPass_fst_ge cur ys)
      · exact ih cur p hp

theorem selectPass_perm (cur : LiquidityPosition) (l : List LiquidityPosition) :
    List.Perm ((selectPass cur l).1 :: (selectPass cur l).2) (cur :: l) := by
  induction l generalizing cur with
  | nil => simp [selectPass]
  | cons y ys ih =>
    by_cases h : cur.Amount < y.Amount
    · simp only [selectPass, if_pos h]
      exact List.Perm.trans (List.Perm.swap cur (selectPass y ys).1 (selectPass y ys).2)
        ((ih y).cons cur)
    · simp only [selectPass, if_neg h]
      exact List.Perm.trans (List.Perm.swap y (selectPass cur ys).1 (selectPass cur ys).2)
        (List.Perm.trans ((ih cur).cons y) (List.Perm.swap cur y ys))

theorem exchangeSortGo_perm :
    ∀ (f : ℕ) (l : List LiquidityPosition), f = l.length →
      List.Perm (exchangeSortGo f l) l := by
  intro f
  induction f with
  | zero =>
    intro l hl
    simp [exchangeSortGo]
  | succ f ih =>
    intro l hl
    match l with
    | [] => simp [exchangeSortGo]
    | x :: xs =>
      simp only [exchangeSortGo]
      have hlen : f = (selectPass x xs).2.length := by
        simpa [selectPass_length] using (by simpa using hl : f = xs.length)
      exact List.Perm.trans ((ih _ hlen).cons _) (selectPass_perm x xs)

theorem exchangeSortGo_sorted :
    ∀ (f : ℕ) (l : List LiquidityPosition), f = l.length →
      List.Pairwise (fun a b => b.Amount ≤ a.Amount) (exchangeSortGo f l) := by
  intro f
  induction f with
  | zero =>
    intro l hl
    have : l = [] := List.length_eq_zero.mp hl.symm
    simp [this, exchangeSortGo]
  | succ f ih =>
    intro l hl
    match l with
    | [] => simp [exchangeSortGo]
    | x :: xs =>
      simp only [exchangeSortGo]
      have hlen : f = (selectPass x xs).2.length := by
        simpa [selectPass_length] using (by simpa using hl : f = xs.length)
      refine List.Pairwise.cons ?_ (ih _ hlen)
      intro b hb
      have hb2 : b ∈ (selectPass x xs).2 :=
        (exchangeSortGo_perm f _ hlen).mem_iff.mp hb
      exact selectPass_snd_le x xs b hb2

theorem exchangeSort_perm (l : List LiquidityPosition) :
    List.Perm (exchangeSort l) l :=
  exchangeSortGo_perm l.length l rfl

theorem exchangeSort_sorted (l : List LiquidityPosition) :
    List.Pairwise (fun a b => b.Amount ≤ a.Amount) (exchangeSort l) :=
  exchangeSortGo_sorted l.length l rfl

theorem selectPass_of_max (cur : LiquidityPosition)
    (l : List LiquidityPosition) (h : ∀ p ∈ l, p.Amount ≤ cur.Amount) :
    selectPass cur l = (cur, l) := by
  induction l with
  | nil => simp [selectPass]
  | cons y ys ih =>
    have hy : ¬ cur.Amount < y.Amount := not_lt.mpr (h y (by simp))
    simp [selectPass, hy, ih fun p hp => h p (by simp [hp])]

theorem exchangeSortGo_of_sorted :
    ∀ (f : ℕ) (l : List LiquidityPosition),
      List.Pairwise (fun a b => b.Amount ≤ a.Amount) l →
      exchangeSortGo f l = l := by
  intro f
  induction f with
  | zero => intro l _; simp [exchangeSortGo]
  | succ f ih =>
    intro l hl
    match l with
    | [] => simp [exchangeSortGo]
    | x :: xs =>
      rcases List.pairwise_cons.mp hl with ⟨hx, hxs⟩
      simp [exchangeSortGo, selectPass_of_max x xs hx, ih xs hxs]

theorem exchangeSort_of_sorted (l : List LiquidityPosition)
    (h : List.Pairwise (fun a b => b.Amount ≤ a.Amount) l) :
    exchangeSort l = l :=
  exchangeSortGo_of_sorted l.length l h

/-- The last (up to) 1000 elements of a record list — the retention policy
the bounded history converges to. -/
def trim1000 (l : List TransactionInfo) : List TransactionInfo :=
  l.drop (l.length - 1000)

theorem trim1000_of_le (l : List TransactionInfo) (h : l.length ≤ 1000) :
    trim1000 l = l := by
  simp [trim1000, Nat.sub_eq_zero_of_le h]

theorem trim1000_length (l : List TransactionInfo) :
    (trim1000 l).length = min l.length 1000 := by
  simp [trim1000]
  omega

theorem trimAppend_trim1000 (recs : List TransactionInfo)
    (x : TransactionInfo) :
    trimAppend (trim1000 recs) x = trim1000 (recs ++ [x]) := by
  rcases Nat.lt_or_ge recs.length 1000 with hlt | hge
  · rw [trim1000_of_le recs hlt.le,
        trim1000_of_le (recs ++ [x])
          (by simp only [List.length_append, List.length_singleton]; omega)]
    have hns : ¬ 1000 < recs.length + 1 := by omega
    simp [trimAppend, List.length_append, hns]
  · have hlen : (trim1000 recs).length = 1000 := by
      rw [trim1000_length]; omega
    have hgt : 1000 < ((trim1000 recs) ++ [x]).length := by
      simp [List.length_append, hlen]
    simp only [trimAppend, if_pos hgt]
    have htail : ∀ (l : List TransactionInfo) (y : TransactionInfo),
        (l ++ [y]).tail = l.tail ++ [y] ∨ l = [] := by
      intro l y
      cases l with
      | nil => exact Or.inr rfl
      | cons a as => exact Or.inl rfl
    rcases htail (trim1000 recs) x with heq | hnil
    · rw [heq]
      have h2 : (recs.drop (recs.length - 1000)).tail
          = recs.drop (recs.length - 1000 + 1) := by
        rw [List.tail_drop]
      have h3 : recs.length - 1000 + 1 = (recs ++ [x]).length - 1000 := by
        simp only [List.length_append, List.length_singleton]; omega
      have h4 : (recs ++ [x]).length - 1000 ≤ recs.length := by
        simp only [List.length_append, List.length_singleton]; omega
      simp only [trim1000] at h2 ⊢
      rw [h2, h3, List.drop_append_of_le_length h4]
    · rw [hnil] at hlen
      simp at hlen

/-- Does the event's payload decode under the schema its method demands?
(Methods outside the four recognised ones never attempt a decode.) -/
def parsesOK (ev : VSCEvent) : Bool :=
  match ev.Method, ev.Args with
  | "pool_created", .poolCreated _ _ _ _ => true
  | "pool_created", _ => false
  | "liquidity_added", .liquidityAdded _ _ _ _ _ => true
  | "liquidity_added", _ => false
  | "liquidity_removed", .liquidityRemoved _ _ _ _ _ => true
  | "liquidity_removed", _ => false
  | "swap_executed", .swapExecuted _ _ _ _ _ _ _ _ => true
  | "swap_executed", _ => false
  | _, _ => true

/-- The four method names the `handleDexRouterEvent` switch recognises. -/
def knownMethod (m : String) : Bool :=
  decide (m = "pool_created" ∨ m = "liquidity_added" ∨
    m = "liquidity_removed" ∨ m = "swap_executed")

theorem dexStepState_eq_none_iff (dm : DexReadModel) (ev : VSCEvent) :
    dexStepState dm ev = none ↔ parsesOK ev = false := by
  unfold dexStepState parsesOK
  constructor
  · intro h
    revert h
    split <;> simp
  · intro h
    revert h
    split <;> simp

theorem dexStepState_transactions (dm dm2 : DexReadModel) (ev : VSCEvent)
    (h : dexStepState dm ev = some dm2) :
    dm2.transactions = dm.transactions := by
  revert h
  unfold dexStepState
  split <;> intro h <;>
    first
    | exact Option.noConfusion h
    | (injection h with h2; subst h2; rfl)
    | (injection h with h2;
       split at h2 <;> first
         | (subst h2; rfl)
         | (split at h2 <;> first
             | (subst h2; rfl)
             | (split at h2 <;> (subst h2; rfl))))

theorem handleDexRouterEvent_eq_map (dm : DexReadModel) (ev : VSCEvent) :
    handleDexRouterEvent dm ev =
      (dexStepState dm ev).map fun dm2 =>
        { dm2 with transactions := trimAppend dm.transactions (txRecordOf ev) } := by
  unfold handleDexRouterEvent
  rcases heq : dexStepState dm ev with _ | dm2
  · rfl
  · simp [dexStepState_transactions dm dm2 ev heq]

theorem applyEvent_foreign (s : DexReadModel) (ev : VSCEvent)
    (hc : ev.Contract ≠ "dex-router") : applyEvent s ev = s := by
  simp [applyEvent, HandleEvent, hc]

theorem applyEvent_of_none (s : DexReadModel) (ev : VSCEvent)
    (hstep : dexStepState s ev = none) : applyEvent s ev = s := by
  by_cases hc : ev.Contract = "dex-router"
  · simp [applyEvent, HandleEvent, hc, handleDexRouterEvent, hstep]
  · exact applyEvent_foreign s ev hc

theorem applyEvent_state (s : DexReadModel) (ev : VSCEvent)
    (hc : ev.Contract = "dex-router") (dm2 : DexReadModel)
    (hstep : dexStepState s ev = some dm2) :
    (applyEvent s ev).pools = dm2.pools ∧
      (applyEvent s ev).positions = dm2.positions := by
  simp [applyEvent, HandleEvent, hc, handleDexRouterEvent, hstep]

theorem uadd_eq_of_lt (a b : ℕ) (h : a + b < 2 ^ 64) : GoInt.uadd a b = a + b :=
  Nat.mod_eq_of_lt h

theorem usub_lt (a b : ℕ) : GoInt.usub a b < 2 ^ 64 := by
  unfold GoInt.usub
  have h1 : ((a : ℤ) - b).emod (2 ^ 64) < 2 ^ 64 :=
    Int.emod_lt_of_pos _ (by norm_num)
  have h2 : (0 : ℤ) ≤ ((a : ℤ) - b).emod (2 ^ 64) :=
    Int.emod_nonneg _ (by norm_num)
  omega

theorem usub_of_le (a b : ℕ) (hba : b ≤ a) (ha : a < 2 ^ 64) :
    GoInt.usub a b = a - b := by
  unfold GoInt.usub
  have hz : ((a : ℤ) - b).emod (2 ^ 64) = (a : ℤ) - b := by
    apply Int.emod_eq_of_lt
    · omega
    · push_cast
      omega
  rw [hz]
  omega

theorem sumAmounts_nil : sumAmounts [] = 0 := rfl

theorem sumAmounts_cons (p : LiquidityPosition) (ps : List LiquidityPosition) :
    sumAmounts (p :: ps) = p.Amount + sumAmounts ps := by
  simp [sumAmounts]

theorem sumAmounts_append (l1 l2 : List LiquidityPosition) :
    sumAmounts (l1 ++ l2) = sumAmounts l1 + sumAmounts l2 := by
  simp [sumAmounts]

theorem sumAmounts_mapShare (g : LiquidityPosition → GoFloat.F64)
    (ps : List LiquidityPosition) :
    sumAmounts (ps.map fun p => { p with Share := g p }) = sumAmounts ps := by
  induction ps with
  | nil => rfl
  | cons p ps ih => simp [sumAmounts_cons, ih]

theorem mem_le_sumAmounts (ps : List LiquidityPosition)
    (p : LiquidityPosition) (hp : p ∈ ps) : p.Amount ≤ sumAmounts ps := by
  induction ps with
  | nil => cases hp
  | cons q qs ih =>
    rcases List.mem_cons.mp hp with rfl | hp
    · simp [sumAmounts_cons]
    · calc p.Amount ≤ sumAmounts qs := ih hp
        _ ≤ sumAmounts (q :: qs) := by simp [sumAmounts_cons]

theorem updateFirstPos_add_sum (user : String) (amt : ℕ)
    (ps qs : List LiquidityPosition)
    (h : updateFirstPos user amt true ps = some qs)
    (hbound : sumAmounts ps + amt < 2 ^ 64) :
    sumAmounts qs = sumAmounts ps + amt := by
  induction ps generalizing qs with
  | nil => simp [updateFirstPos] at h
  | cons p ps ih =>
    rw [sumAmounts_cons] at hbound
    by_cases hU : p.User = user
    · simp only [updateFirstPos, if_pos hU, Option.some.injEq] at h
      subst h
      have hplt : p.Amount + amt < 2 ^ 64 := by omega
      simp only [sumAmounts_cons]
      rw [if_pos trivial, uadd_eq_of_lt _ _ hplt]
      omega
    · simp only [updateFirstPos, if_neg hU] at h
      rcases hrec : updateFirstPos user amt true ps with _ | qs'
      · rw [hrec] at h
        exact Option.noConfusion
          (show (none : Option (List LiquidityPosition)) = some qs from h)
      · rw [hrec] at h
        have h2 : p :: qs' = qs := Option.some.inj h
        subst h2
        rw [sumAmounts_cons, sumAmounts_cons, ih qs' hrec (by omega)]
        omega

theorem updateFirstPos_remove (user : String) (lp : ℕ)
    (ps : List LiquidityPosition) (p0 : LiquidityPosition)
    (hfind : ps.find? (fun p => p.User == user) = some p0)
    (hle : lp ≤ p0.Amount) :
    ∃ qs, updateFirstPos user lp false ps = some qs ∧
      sumAmounts qs + lp = sumAmounts ps := by
  induction ps with
  | nil => simp [List.find?] at hfind
  | cons p ps ih =>
    by_cases hU : p.User = user
    · have hbt : (p.User == user) = true := beq_iff_eq.mpr hU
      have hfp : p = p0 := by
        simp only [List.find?, hbt, Option.some.injEq] at hfind
        exact hfind
      have hlep : lp ≤ p.Amount := by rw [hfp]; exact hle
      refine ⟨{ p with
          Amount := if lp < p.Amount then p.Amount - lp else 0 } :: ps,
        ?_, ?_⟩
      · simp only [updateFirstPos, if_pos hU, Option.some.injEq]
        rfl
      · rw [sumAmounts_cons, sumAmounts_cons]
        have hproj : ({ p with
            Amount := if lp < p.Amount then p.Amount - lp else 0 } :
            LiquidityPosition).Amount
            = if lp < p.Amount then p.Amount - lp else 0 := rfl
        rw [hproj]
        by_cases hlt : lp < p.Amount
        · rw [if_pos hlt]; omega
        · rw [if_neg hlt]; omega
    · have hbf : (p.User == user) = false := beq_eq_false_iff_ne.mpr hU
      simp only [List.find?, hbf] at hfind
      rcases ih hfind with ⟨qs', hq, hsum⟩
      refine ⟨p :: qs', ?_, ?_⟩
      · simp only [updateFirstPos, if_neg hU, hq]
        rfl
      · rw [sumAmounts_cons, sumAmounts_cons]
        omega

/-- The pool/position consistency invariant: for every stored pool, the
amounts of its recorded positions sum to its `totalSupply` (which, being a
`uint64`, stays below `2 ^ 64`). -/
def PoolConsistent (s : DexReadModel) : Prop :=
  ∀ pid pool, assocGet s.pools pid = some pool →
    sumAmounts (positionsOf s pid) = pool.TotalSupply ∧
      pool.TotalSupply < 2 ^ 64

theorem PoolConsistent_of_eq (u v : DexReadModel) (hp : u.pools = v.pools)
    (hq : u.positions = v.positions) (h : PoolConsistent v) :
    PoolConsistent u := by
  intro pid pool hg
  rw [hp] at hg
  have := h pid pool hg
  unfold positionsOf
  rw [hq]
  exact this

/-- The per-event hypotheses under which deposits and withdrawals keep the
positions sum equal to the pool's `totalSupply`: deposits to an existing
pool carry a non-empty user and do not overflow the `uint64` total supply;
withdrawals from an existing pool name a user whose recorded position (the
first with that name, the one the update touches) holds at least the
withdrawn LP amount; a pool id is never created over existing state. All
other events (foreign contracts, unknown pools, malformed payloads,
unknown methods, swaps) are unrestricted. -/
def goodEventB (s : DexReadModel) (ev : VSCEvent) : Bool :=
  if ev.Contract ≠ "dex-router" then true
  else
    match ev.Method, ev.Args with
    | "pool_created", .poolCreated pid _ _ _ =>
      decide (assocGet s.pools pid = none ∧ positionsOf s pid = [])
    | "liquidity_added", .liquidityAdded pid user a0 _ lp =>
      (match assocGet s.pools pid with
       | some pool =>
         decide (user ≠ "" ∧
           pool.TotalSupply + (if lp = 0 then a0 else lp) < 2 ^ 64)
       | none => true)
    | "liquidity_removed", .liquidityRemoved pid user _ _ lp =>
      (match assocGet s.pools pid with
       | some _ =>
         (match (positionsOf s pid).find? (fun p => p.User == user) with
          | some p0 => decide (lp ≤ p0.Amount)
          | none => false)
       | none => true)
    | _, _ => true

/-- `goodEventB` holding at every step along a delivered sequence. -/
def goodSeqB : DexReadModel → List VSCEvent → Bool
  | _, [] => true
  | s, ev :: evs => goodEventB s ev && goodSeqB (applyEvent s ev) evs

theorem positionsOf_set_self (s : DexReadModel) (pid : String)
    (l : List LiquidityPosition) (tx : List TransactionInfo)
    (pl : List (String × PoolInfo)) :
    positionsOf ⟨pl, tx, assocSet s.positions pid l⟩ pid = l := by
  simp [positionsOf, assocGet_assocSet_self]

theorem positionsOf_set_ne (s : DexReadModel) (pid pid2 : String)
    (hne : pid ≠ pid2) (l : List LiquidityPosition)
    (tx : List TransactionInfo) (pl : List (String × PoolInfo)) :
    positionsOf ⟨pl, tx, assocSet s.positions pid l⟩ pid2 =
      positionsOf s pid2 := by
  simp [positionsOf, assocGet_assocSet_ne _ _ _ _ hne]

theorem updateLiquidityPosition_pools (dm : DexReadModel)
    (pid user : String) (amt : ℕ) (b : Bool) :
    (updateLiquidityPosition dm pid user amt b).pools = dm.pools := rfl

theorem updateLiquidityPosition_positions_ne (dm : DexReadModel)
    (pid pid2 user : String) (hne : pid ≠ pid2) (amt : ℕ) (b : Bool) :
    positionsOf (updateLiquidityPosition dm pid user amt b) pid2 =
      positionsOf dm pid2 := by
  unfold updateLiquidityPosition
  exact positionsOf_set_ne dm pid pid2 hne _ _ _

theorem updateLiquidityPosition_sum_add (dm : DexReadModel)
    (pid user : String) (amt : ℕ)
    (hbound : sumAmounts (positionsOf dm pid) + amt < 2 ^ 64) :
    sumAmounts (positionsOf (updateLiquidityPosition dm pid user amt true) pid)
      = sumAmounts (positionsOf dm pid) + amt := by
  unfold updateLiquidityPosition
  rw [positionsOf_set_self, sumAmounts_mapShare]
  rcases hup : updateFirstPos user amt true (positionsOf dm pid) with _ | qs
  · simp only [hup]
    by_cases hamt : 0 < amt
    · have hcond : True ∧ 0 < amt := ⟨trivial, hamt⟩
      rw [if_pos hcond, sumAmounts_append, sumAmounts_cons]
      rfl
    · have h0 : amt = 0 := by omega
      subst h0
      simp
  · simp only [hup]
    exact updateFirstPos_add_sum _ _ _ _ hup hbound

theorem updateLiquidityPosition_sum_remove (dm : DexReadModel)
    (pid user : String) (lp : ℕ) (p0 : LiquidityPosition)
    (hfind : (positionsOf dm pid).find? (fun p => p.User == user) = some p0)
    (hle : lp ≤ p0.Amount) :
    sumAmounts (positionsOf (updateLiquidityPosition dm pid user lp false) pid)
      + lp = sumAmounts (positionsOf dm pid) := by
  unfold updateLiquidityPosition
  rw [positionsOf_set_self, sumAmounts_mapShare]
  rcases updateFirstPos_remove user lp _ p0 hfind hle with ⟨qs, hq, hsum⟩
  simp only [hq]
  exact hsum

theorem dexStep_preserves (s : DexReadModel) (ev : VSCEvent)
    (hc : ev.Contract = "dex-router")
    (hInv : PoolConsistent s) (hgood : goodEventB s ev = true)
    (dm2 : DexReadModel) (hstep : dexStepState s ev = some dm2) :
    PoolConsistent dm2 := by
  have hcne : ¬ ev.Contract ≠ "dex-router" := by simp [hc]
  revert hstep
  unfold dexStepState
  split
  -- pool_created
  case _ pid a0 a1 fee heqM heqA =>
    intro hstep
    injection hstep with hdm2
    subst hdm2
    simp only [goodEventB, if_neg hcne, heqM, heqA, decide_eq_true_eq] at hgood
    intro pid2 pool2 hget2
    by_cases hpid : pid = pid2
    · subst hpid
      rw [show (⟨pid, a0, a1, fee, 0, 0, 0⟩ : PoolInfo) = ⟨pid, a0, a1, fee, 0, 0, 0⟩ from rfl] at hget2
      have hself := assocGet_assocSet_self s.pools pid (⟨pid, a0, a1, fee, 0, 0, 0⟩ : PoolInfo)
      rw [show assocGet (assocSet s.pools pid (⟨pid, a0, a1, fee, 0, 0, 0⟩ : PoolInfo)) pid
            = some ⟨pid, a0, a1, fee, 0, 0, 0⟩ from hself] at hget2
      have hpool2 : pool2 = ⟨pid, a0, a1, fee, 0, 0, 0⟩ := (Option.some.inj hget2).symm
      subst hpool2
      constructor
      · show sumAmounts (positionsOf s pid) = 0
        rw [hgood.2]
        rfl
      · norm_num
    · have hget2s : assocGet s.pools pid2 = some pool2 := by
        rw [← assocGet_assocSet_ne s.pools pid pid2 (⟨pid, a0, a1, fee, 0, 0, 0⟩ : PoolInfo) hpid]
        exact hget2
      exact hInv pid2 pool2 hget2s
  case _ => intro hstep; exact Option.noConfusion hstep
  -- liquidity_added
  case _ pid user a0 a1 lp heqM heqA =>
    intro hstep
    injection hstep with hdm2
    simp only [goodEventB, if_neg hcne, heqM, heqA] at hgood
    rcases hpool : assocGet s.pools pid with _ | pool
    · simp only [hpool] at hdm2
      subst hdm2
      exact hInv
    · simp only [hpool] at hdm2 hgood
      simp only [decide_eq_true_eq] at hgood
      rcases hgood with ⟨hu, hbound⟩
      rw [if_pos hu] at hdm2
      subst hdm2
      have hinvp := hInv pid pool hpool
      intro pid2 pool2 hget2
      rw [updateLiquidityPosition_pools] at hget2
      by_cases hpid : pid = pid2
      · subst hpid
        simp only [] at hget2
        rw [assocGet_assocSet_self] at hget2
        have hpool2 : pool2 = { pool with
            Reserve0 := GoInt.uadd pool.Reserve0 a0,
            Reserve1 := GoInt.uadd pool.Reserve1 a1,
            TotalSupply := GoInt.uadd pool.TotalSupply (if lp = 0 then a0 else lp) } :=
          (Option.some.inj hget2).symm
        subst hpool2
        have hbase : positionsOf { s with
            pools := assocSet s.pools pid { pool with
              Reserve0 := GoInt.uadd pool.Reserve0 a0,
              Reserve1 := GoInt.uadd pool.Reserve1 a1,
              TotalSupply := GoInt.uadd pool.TotalSupply (if lp = 0 then a0 else lp) } } pid
            = positionsOf s pid := rfl
        have hb2 : sumAmounts (positionsOf s pid) + (if lp = 0 then a0 else lp) < 2 ^ 64 := by
          rw [hinvp.1]; exact hbound
        rw [updateLiquidityPosition_sum_add _ _ _ _ (by rw [hbase]; exact hb2)]
        rw [hbase, hinvp.1]
        constructor
        · show pool.TotalSupply + (if lp = 0 then a0 else lp)
            = GoInt.uadd pool.TotalSupply (if lp = 0 then a0 else lp)
          rw [uadd_eq_of_lt _ _ hbound]
        · show GoInt.uadd pool.TotalSupply (if lp = 0 then a0 else lp) < 2 ^ 64
          exact Nat.mod_lt _ (by norm_num)
      · rw [updateLiquidityPosition_positions_ne _ _ _ _ hpid]
        simp only [] at hget2
        rw [assocGet_assocSet_ne _ _ _ _ hpid] at hget2
        exact hInv pid2 pool2 hget2
  case _ => intro hstep; exact Option.noConfusion hstep
  -- liquidity_removed
  case _ pid user a0 a1 lp heqM heqA =>
    intro hstep
    injection hstep with hdm2
    simp only [goodEventB, if_neg hcne, heqM, heqA] at hgood
    rcases hpool : assocGet s.pools pid with _ | pool
    · simp only [hpool] at hdm2
      subst hdm2
      exact hInv
    · simp only [hpool] at hdm2 hgood
      rcases hfind : (positionsOf s pid).find? (fun p => p.User == user) with _ | p0
      · rw [hfind] at hgood
        exact absurd hgood (by simp)
      · rw [hfind] at hgood
        simp only [decide_eq_true_eq] at hgood
        subst hdm2
        have hinvp := hInv pid pool hpool
        have hle64 : lp ≤ pool.TotalSupply := by
          have hmem : p0 ∈ positionsOf s pid := List.mem_of_find?_eq_some hfind
          have := mem_le_sumAmounts _ _ hmem
          omega
        intro pid2 pool2 hget2
        rw [updateLiquidityPosition_pools] at hget2
        by_cases hpid : pid = pid2
        · subst hpid
          simp only [] at hget2
          rw [assocGet_assocSet_self] at hget2
          have hpool2 : pool2 = { pool with
              Reserve0 := GoInt.usub pool.Reserve0 a0,
              Reserve1 := GoInt.usub pool.Reserve1 a1,
              TotalSupply := GoInt.usub pool.TotalSupply lp } :=
            (Option.some.inj hget2).symm
          subst hpool2
          have hbase : positionsOf { s with
              pools := assocSet s.pools pid { pool with
                Reserve0 := GoInt.usub pool.Reserve0 a0,
                Reserve1 := GoInt.usub pool.Reserve1 a1,
                TotalSupply := GoInt.usub pool.TotalSupply lp } } pid
              = positionsOf s pid := rfl
          have hrem := updateLiquidityPosition_sum_remove
            ({ s with pools := assocSet s.pools pid { pool with
                Reserve0 := GoInt.usub pool.Reserve0 a0,
                Reserve1 := GoInt.usub pool.Reserve1 a1,
                TotalSupply := GoInt.usub pool.TotalSupply lp } })
            pid user lp p0 (by rw [hbase]; exact hfind) hgood
          rw [hbase] at hrem
          constructor
          · rw [usub_of_le _ _ hle64 hinvp.2] at hrem ⊢
            show _ = pool.TotalSupply - lp
            omega
          · exact usub_lt _ _
        · rw [updateLiquidityPosition_positions_ne _ _ _ _ hpid]
          simp only [] at hget2
          rw [assocGet_assocSet_ne _ _ _ _ hpid] at hget2
          exact hInv pid2 pool2 hget2
  case _ => intro hstep; exact Option.noConfusion hstep
  -- swap_executed
  case _ pid user a0 a1 ain aout sin sout heqM heqA =>
    intro hstep
    injection hstep with hdm2
    rcases hpool : assocGet s.pools pid with _ | pool
    · simp only [hpool] at hdm2
      subst hdm2
      exact hInv
    · simp only [hpool] at hdm2
      subst hdm2
      intro pid2 pool2 hget2
      by_cases hpid : pid = pid2
      · subst hpid
        simp only [] at hget2
        rw [assocGet_assocSet_self] at hget2
        have hts : pool2.TotalSupply = pool.TotalSupply := by
          have h := (Option.some.inj hget2).symm
          subst h
          unfold swapReserveUpdate
          split
          · rfl
          · split <;> rfl
        rw [hts]
        exact hInv pid pool hpool
      · simp only [] at hget2
        rw [assocGet_assocSet_ne _ _ _ _ hpid] at hget2
        exact hInv pid2 pool2 hget2
  case _ => intro hstep; exact Option.noConfusion hstep
  -- unknown method
  case _ =>
    intro hstep
    injection hstep with hdm2
    subst hdm2
    exact hInv



theorem PoolConsistent_empty : PoolConsistent emptyModel := by
  intro pid pool h
  simp [emptyModel, assocGet] at h

theorem goodStep_preserves (s : DexReadModel) (ev : VSCEvent)
    (hInv : PoolConsistent s) (hgood : goodEventB s ev = true) :
    PoolConsistent (applyEvent s ev) := by
  by_cases hc : ev.Contract = "dex-router"
  · rcases hstep : dexStepState s ev with _ | dm2
    · rw [applyEvent_of_none s ev hstep]
      exact hInv
    · rcases applyEvent_state s ev hc dm2 hstep with ⟨hp, hq⟩
      exact PoolConsistent_of_eq _ _ hp hq
        (dexStep_preserves s ev hc hInv hgood dm2 hstep)
  · rw [applyEvent_foreign s ev hc]
    exact hInv

theorem goodSeq_preserves :
    ∀ (evs : List VSCEvent) (s : DexReadModel), PoolConsistent s →
      goodSeqB s evs = true → PoolConsistent (applyEvents s evs) := by
  intro evs
  induction evs with
  | nil => intro s h _; exact h
  | cons e es ih =>
    intro s h hg
    simp only [goodSeqB, Bool.and_eq_true] at hg
    exact ih _ (goodStep_preserves s e h hg.1) hg.2

theorem applyEvent_transactions_good (s : DexReadModel) (ev : VSCEvent)
    (hc : ev.Contract = "dex-router") (hok : parsesOK ev = true) :
    (applyEvent s ev).transactions
      = trimAppend s.transactions (txRecordOf ev) := by
  rcases hstep : dexStepState s ev with _ | dm2
  · have := (dexStepState_eq_none_iff s ev).mp hstep
    rw [hok] at this
    exact Bool.noConfusion this
  · simp [applyEvent, HandleEvent, hc, handleDexRouterEvent_eq_map, hstep]

theorem applyEvents_transactions :
    ∀ (evs : List VSCEvent) (s : DexReadModel) (recs : List TransactionInfo),
      (∀ e ∈ evs, e.Contract = "dex-router" ∧ parsesOK e = true) →
      s.transactions = trim1000 recs →
      (applyEvents s evs).transactions
        = trim1000 (recs ++ evs.map txRecordOf) := by
  intro evs
  induction evs with
  | nil => intro s recs _ hs; simpa using hs
  | cons e es ih =>
    intro s recs hall hs
    have he := hall e (by simp)
    have htx : (applyEvent s e).transactions
        = trim1000 (recs ++ [txRecordOf e]) := by
      rw [applyEvent_transactions_good s e he.1 he.2, hs, trimAppend_trim1000]
    have hrest : ∀ e2 ∈ es, e2.Contract = "dex-router" ∧ parsesOK e2 = true :=
      fun e2 h2 => hall e2 (by simp [h2])
    have := ih (applyEvent s e) (recs ++ [txRecordOf e]) hrest htx
    show (applyEvents (applyEvent s e) es).transactions = _
    rw [this, List.append_assoc]
    rfl

end Indexer

namespace Indexer

theorem dexStepState_poolCreated (dm : DexReadModel) (pid a0 a1 : String)
    (fee : GoFloat.F64) (txid : String) (bh : ℕ) :
    dexStepState dm
        ⟨"dex-router", "pool_created", .poolCreated pid a0 a1 fee, txid, bh⟩
      = some { dm with pools := assocSet dm.pools pid ⟨pid, a0, a1, fee, 0, 0, 0⟩ } := rfl

theorem dexStepState_swap (dm : DexReadModel) (pid user : String)
    (a0 a1 : ℤ) (ain aout : ℕ) (assetIn assetOut txid : String) (bh : ℕ)
    (pool : PoolInfo) (hpool : assocGet dm.pools pid = some pool) :
    dexStepState dm ⟨"dex-router", "swap_executed",
        .swapExecuted pid user a0 a1 ain aout assetIn assetOut, txid, bh⟩
      = some { dm with pools := assocSet dm.pools pid (swapReserveUpdate pool a0 a1 ain aout assetIn) } := by
  unfold dexStepState
  simp only [hpool]

end Indexer

/-- C3: applying `swap_executed` to an existing pool uses the legacy
encoding exactly when `amount0` or `amount1` is non-zero, adding those
signed deltas directly to the reserves (modulo the `uint64` wrap of the
source's two's-complement arithmetic); otherwise it uses the directional
encoding: the reserve of the side matching `asset_in` against the pool's
`asset0`/`asset1` grows by `amount_in` and the other side shrinks by
`amount_out`. -/
theorem C3_swap_encoding (dm : Indexer.DexReadModel) (pid user : String)
    (a0 a1 : ℤ) (ain aout : ℕ) (assetIn assetOut txid : String) (bh : ℕ)
    (pool : Indexer.PoolInfo)
    (hpool : Indexer.assocGet dm.pools pid = some pool) :
    ((a0 ≠ 0 ∨ a1 ≠ 0) →
      Indexer.assocGet (Indexer.applyEvent dm ⟨"dex-router", "swap_executed",
          .swapExecuted pid user a0 a1 ain aout assetIn assetOut, txid, bh⟩).pools pid
        = some { pool with
            Reserve0 := GoInt.addWrapI64 pool.Reserve0 a0,
            Reserve1 := GoInt.addWrapI64 pool.Reserve1 a1 })
    ∧ (a0 = 0 → a1 = 0 → assetIn = pool.Asset0 →
      Indexer.assocGet (Indexer.applyEvent dm ⟨"dex-router", "swap_executed",
          .swapExecuted pid user a0 a1 ain aout assetIn assetOut, txid, bh⟩).pools pid
        = some { pool with
            Reserve0 := GoInt.uadd pool.Reserve0 ain,
            Reserve1 := GoInt.usub pool.Reserve1 aout })
    ∧ (a0 = 0 → a1 = 0 → assetIn ≠ pool.Asset0 → assetIn = pool.Asset1 →
      Indexer.assocGet (Indexer.applyEvent dm ⟨"dex-router", "swap_executed",
          .swapExecuted pid user a0 a1 ain aout assetIn assetOut, txid, bh⟩).pools pid
        = some { pool with
            Reserve1 := GoInt.uadd pool.Reserve1 ain,
            Reserve0 := GoInt.usub pool.Reserve0 aout }) := by
  have hstep := Indexer.dexStepState_swap dm pid user a0 a1 ain aout
    assetIn assetOut txid bh pool hpool
  have hpools := (Indexer.applyEvent_state dm _ rfl _ hstep).1
  refine ⟨?_, ?_, ?_⟩
  · intro hleg
    rw [hpools]
    show Indexer.assocGet (Indexer.assocSet dm.pools pid _) pid = _
    rw [Indexer.assocGet_assocSet_self]
    unfold Indexer.swapReserveUpdate
    rw [if_pos hleg]
  · intro h0 h1 hin
    rw [hpools]
    show Indexer.assocGet (Indexer.assocSet dm.pools pid _) pid = _
    rw [Indexer.assocGet_assocSet_self]
    unfold Indexer.swapReserveUpdate
    rw [if_neg (by simp [h0, h1]), if_pos hin]
  · intro h0 h1 hnin _
    rw [hpools]
    show Indexer.assocGet (Indexer.assocSet dm.pools pid _) pid = _
    rw [Indexer.assocGet_assocSet_self]
    unfold Indexer.swapReserveUpdate
    rw [if_neg (by simp [h0, h1]), if_neg hnin]

/-- C3 witness: the legacy branch at a concrete input — swapping deltas
`(+3, 0)` on the freshly created zero-reserve pool yields reserves
`(3, 0)`. -/
theorem C3_swap_encoding_witness :
    ((3 : ℤ) ≠ 0 ∨ (0 : ℤ) ≠ 0) ∧
    Indexer.assocGet (Indexer.applyEvent Indexer.dmPoolOnly
        ⟨"dex-router", "swap_executed",
          .swapExecuted "p" "" 3 0 0 0 "HBD" "HIVE", "t12", 12⟩).pools "p"
      = some ⟨"p", "HBD", "HIVE", ⟨0, 0⟩, GoInt.addWrapI64 0 3, GoInt.addWrapI64 0 0, 0⟩ := by
  refine ⟨by decide, ?_⟩
  exact (C3_swap_encoding Indexer.dmPoolOnly "p" "" 3 0 0 0 "HBD" "HIVE" "t12" 12
    (⟨"p", "HBD", "HIVE", ⟨0, 0⟩, 0, 0, 0⟩ : Indexer.PoolInfo) (by decide)).1 (by decide)

/-- C10: applying `pool_created` for a pool id that already exists
overwrites the stored pool — assets and fee are replaced by the event's
values, `reserve0`, `reserve1` and `totalSupply` reset to zero — while the
liquidity positions recorded under that id are left in place. -/
theorem C10_pool_created_overwrites (dm : Indexer.DexReadModel)
    (pid a0 a1 : String) (fee : GoFloat.F64) (txid : String) (bh : ℕ)
    (oldPool : Indexer.PoolInfo)
    (hold : Indexer.assocGet dm.pools pid = some oldPool) :
    Indexer.assocGet (Indexer.applyEvent dm ⟨"dex-router", "pool_created",
        .poolCreated pid a0 a1 fee, txid, bh⟩).pools pid
      = some ⟨pid, a0, a1, fee, 0, 0, 0⟩
    ∧ (Indexer.applyEvent dm ⟨"dex-router", "pool_created",
        .poolCreated pid a0 a1 fee, txid, bh⟩).positions = dm.positions := by
  have hstep := Indexer.dexStepState_poolCreated dm pid a0 a1 fee txid bh
  have h2 := Indexer.applyEvent_state dm _ rfl _ hstep
  constructor
  · rw [h2.1]
    simp only []
    rw [Indexer.assocGet_assocSet_self]
  · rw [h2.2]

/-- C10 witness: re-creating pool `p` (originally HBD/HIVE) as BTC/HBD
replaces the stored pool with zeroed reserves and leaves positions
untouched. -/
theorem C10_pool_created_overwrites_witness :
    Indexer.assocGet Indexer.dmPoolOnly.pools "p"
      = some ⟨"p", "HBD", "HIVE", ⟨0, 0⟩, 0, 0, 0⟩
    ∧ Indexer.assocGet (Indexer.applyEvent Indexer.dmPoolOnly
        ⟨"dex-router", "pool_created",
          .poolCreated "p" "BTC" "HBD" ⟨0, 0⟩, "t13", 13⟩).pools "p"
      = some ⟨"p", "BTC", "HBD", ⟨0, 0⟩, 0, 0, 0⟩
    ∧ (Indexer.applyEvent Indexer.dmPoolOnly
        ⟨"dex-router", "pool_created",
          .poolCreated "p" "BTC" "HBD" ⟨0, 0⟩, "t13", 13⟩).positions
      = Indexer.dmPoolOnly.positions := by
  have h := C10_pool_created_overwrites Indexer.dmPoolOnly "p" "BTC" "HBD"
    ⟨0, 0⟩ "t13" 13 (⟨"p", "HBD", "HIVE", ⟨0, 0⟩, 0, 0, 0⟩ : Indexer.PoolInfo)
    (by decide)
  exact ⟨by decide, h.1, h.2⟩

namespace Indexer

theorem take_min_length {α : Type} (l : List α) (n : ℕ) :
    l.take (min n l.length) = l.take n := by
  rcases le_total n l.length with h | h
  · rw [min_eq_left h]
  · rw [min_eq_right h, List.take_length, List.take_all_of_le h]

theorem dexStepState_unknown (dm : DexReadModel) (ev : VSCEvent)
    (h : knownMethod ev.Method = false) : dexStepState dm ev = some dm := by
  unfold dexStepState
  split
  case _ heqM _ => rw [heqM] at h; exact absurd h (by decide)
  case _ heqM _ => rw [heqM] at h; exact absurd h (by decide)
  case _ heqM _ => rw [heqM] at h; exact absurd h (by decide)
  case _ heqM _ => rw [heqM] at h; exact absurd h (by decide)
  case _ heqM _ => rw [heqM] at h; exact absurd h (by decide)
  case _ heqM _ => rw [heqM] at h; exact absurd h (by decide)
  case _ heqM _ => rw [heqM] at h; exact absurd h (by decide)
  case _ heqM _ => rw [heqM] at h; exact absurd h (by decide)
  case _ => rfl

theorem txRecordOf_unknown (ev : VSCEvent)
    (h : knownMethod ev.Method = false) :
    txRecordOf ev = ⟨ev.TxID, "", "", "", ev.BlockHeight, "", .blank⟩ := by
  unfold txRecordOf
  split
  case _ heqM _ => rw [heqM] at h; exact absurd h (by decide)
  case _ heqM _ => rw [heqM] at h; exact absurd h (by decide)
  case _ heqM _ => rw [heqM] at h; exact absurd h (by decide)
  case _ heqM _ => rw [heqM] at h; exact absurd h (by decide)
  case _ => rfl

theorem parsesOK_false_known (ev : VSCEvent)
    (h : parsesOK ev = false) : knownMethod ev.Method = true := by
  revert h
  unfold parsesOK
  split <;> intro h <;>
    first
    | exact Bool.noConfusion h
    | (rename_i heqM _; rw [heqM]; decide)

end Indexer

/-- C2 amended: starting from the empty ledger, the amounts of each pool's
recorded positions sum to that pool's `totalSupply` after any event
sequence in which, at each step, deposits to existing pools carry a
non-empty user and do not overflow the `uint64` total supply, withdrawals
from existing pools name a user whose first recorded position holds at
least the withdrawn LP amount, and `pool_created` never reuses a live pool
id (`goodSeqB`). Without these side conditions the equality fails (see the
counterexample: user-less deposits mint supply with no position). -/
theorem C2_total_supply_invariant (evs : List Indexer.VSCEvent)
    (h : Indexer.goodSeqB Indexer.emptyModel evs = true) :
    ∀ pid pool,
      Indexer.assocGet (Indexer.applyEvents Indexer.emptyModel evs).pools pid
        = some pool →
      Indexer.sumAmounts
          (Indexer.positionsOf (Indexer.applyEvents Indexer.emptyModel evs) pid)
        = pool.TotalSupply := by
  intro pid pool hg
  exact (Indexer.goodSeq_preserves evs Indexer.emptyModel
    Indexer.PoolConsistent_empty h pid pool hg).1

/-- C2 witness: a concrete well-behaved sequence — pool creation followed
by two user deposits — satisfies `goodSeqB`, so the sum of position
amounts equals `totalSupply` in the resulting state. -/
theorem C2_total_supply_invariant_witness :
    Indexer.goodSeqB Indexer.emptyModel
        [Indexer.exPool, Indexer.exAddB100, Indexer.exAddA100] = true
    ∧ ∀ pid pool,
        Indexer.assocGet (Indexer.applyEvents Indexer.emptyModel
            [Indexer.exPool, Indexer.exAddB100, Indexer.exAddA100]).pools pid
          = some pool →
        Indexer.sumAmounts (Indexer.positionsOf
            (Indexer.applyEvents Indexer.emptyModel
              [Indexer.exPool, Indexer.exAddB100, Indexer.exAddA100]) pid)
          = pool.TotalSupply :=
  ⟨by decide, C2_total_supply_invariant _ (by decide)⟩

/-- C6: after applying any sequence of well-formed events addressed to the
DEX router contract, the transaction history equals the last (up to) 1000
of the per-event records in arrival order — so records are evicted
oldest-first — and once more than 1000 events have been applied the ledger
holds exactly 1000 records. -/
theorem C6_transaction_retention (evs : List Indexer.VSCEvent)
    (h : ∀ e ∈ evs, e.Contract = "dex-router" ∧ Indexer.parsesOK e = true) :
    (Indexer.applyEvents Indexer.emptyModel evs).transactions
        = Indexer.trim1000 (evs.map Indexer.txRecordOf)
    ∧ (1000 < evs.length →
        (Indexer.applyEvents Indexer.emptyModel evs).transactions.length = 1000) := by
  have h1 := Indexer.applyEvents_transactions evs Indexer.emptyModel [] h rfl
  have h2 : (Indexer.applyEvents Indexer.emptyModel evs).transactions
      = Indexer.trim1000 (evs.map Indexer.txRecordOf) := by
    simpa using h1
  refine ⟨h2, ?_⟩
  intro hlen
  rw [h2, Indexer.trim1000_length, List.length_map]
  omega

/-- C6 witness: applying 1001 router events leaves exactly 1000 records,
the suffix of the 1001 per-event records (the first-arrived record is the
one evicted). -/
theorem C6_transaction_retention_witness :
    (∀ e ∈ List.replicate 1001 Indexer.exPool,
        e.Contract = "dex-router" ∧ Indexer.parsesOK e = true)
    ∧ (Indexer.applyEvents Indexer.emptyModel
          (List.replicate 1001 Indexer.exPool)).transactions
        = Indexer.trim1000
            ((List.replicate 1001 Indexer.exPool).map Indexer.txRecordOf)
    ∧ (Indexer.applyEvents Indexer.emptyModel
          (List.replicate 1001 Indexer.exPool)).transactions.length = 1000 := by
  have hall : ∀ e ∈ List.replicate 1001 Indexer.exPool,
      e.Contract = "dex-router" ∧ Indexer.parsesOK e = true := by
    intro e he
    rw [List.eq_of_mem_replicate he]
    exact ⟨rfl, by decide⟩
  exact ⟨hall, (C6_transaction_retention _ hall).1,
    (C6_transaction_retention _ hall).2 (by simp)⟩

/-- C7 amended: `HandleEvent` returns an error exactly when the event is
addressed to the DEX router contract and its argument payload fails to
decode under the schema of a recognised method (the handler returns before
any state change in that case); events of other contracts are a complete
no-op; but — contrary to the original claim — an event of the router
contract with an unknown method, while producing no error and no
pool/position change, still appends a blank transaction record to the
history. -/
theorem C7_event_errors (dm : Indexer.DexReadModel) (ev : Indexer.VSCEvent) :
    (Indexer.HandleEvent dm ev = none ↔
        ev.Contract = "dex-router" ∧ Indexer.parsesOK ev = false)
    ∧ (ev.Contract ≠ "dex-router" → Indexer.HandleEvent dm ev = some dm)
    ∧ (ev.Contract = "dex-router" → Indexer.knownMethod ev.Method = false →
        Indexer.HandleEvent dm ev
          = some { dm with
              transactions := Indexer.trimAppend dm.transactions (Indexer.txRecordOf ev) })
    ∧ (Indexer.knownMethod ev.Method = false →
        Indexer.txRecordOf ev = ⟨ev.TxID, "", "", "", ev.BlockHeight, "", .blank⟩)
    ∧ (Indexer.parsesOK ev = false → Indexer.knownMethod ev.Method = true) := by
  refine ⟨?_, ?_, ?_, Indexer.txRecordOf_unknown ev, Indexer.parsesOK_false_known ev⟩
  · constructor
    · intro hn
      by_cases hc : ev.Contract = "dex-router"
      · refine ⟨hc, ?_⟩
        rw [← Indexer.dexStepState_eq_none_iff dm ev]
        simp only [Indexer.HandleEvent, if_pos hc,
          Indexer.handleDexRouterEvent_eq_map] at hn
        exact Option.map_eq_none.mp hn
      · simp [Indexer.HandleEvent, hc] at hn
    · rintro ⟨hc, hfalse⟩
      have hstep := (Indexer.dexStepState_eq_none_iff dm ev).mpr hfalse
      simp [Indexer.HandleEvent, hc, Indexer.handleDexRouterEvent_eq_map, hstep]
  · intro hc
    simp [Indexer.HandleEvent, hc]
  · intro hc hk
    simp [Indexer.HandleEvent, hc, Indexer.handleDexRouterEvent_eq_map,
      Indexer.dexStepState_unknown dm ev hk]

/-- C7 witness: concrete instances — a malformed `liquidity_added` payload
errors, a foreign-contract event is a perfect no-op, and an unknown router
method appends exactly one blank record. -/
theorem C7_event_errors_witness :
    Indexer.HandleEvent Indexer.emptyModel Indexer.exMalformed = none
    ∧ Indexer.HandleEvent Indexer.emptyModel Indexer.exForeign
        = some Indexer.emptyModel
    ∧ Indexer.HandleEvent Indexer.emptyModel Indexer.exBogus
        = some { Indexer.emptyModel with
            transactions := Indexer.trimAppend Indexer.emptyModel.transactions (Indexer.txRecordOf Indexer.exBogus) } := by
  refine ⟨?_, ?_, ?_⟩
  · exact (C7_event_errors Indexer.emptyModel Indexer.exMalformed).1.mpr
      ⟨rfl, by decide⟩
  · exact (C7_event_errors Indexer.emptyModel Indexer.exForeign).2.1 (by decide)
  · exact (C7_event_errors Indexer.emptyModel Indexer.exBogus).2.2.1 rfl (by decide)

/-- C8: a swap or route request whose input asset equals its output asset
is always rejected with the same-asset error (`Success = false`,
`"cannot swap asset to itself"`) before the executor is ever consulted, and
never yields a successful quote; `ComputeRoute` behaves identically since
it delegates to `ExecuteSwap`. -/
theorem C8_same_asset_swap_rejected (exec : Router.Executor)
    (params : Router.SwapParams) (h : params.AssetIn = params.AssetOut) :
    Router.ExecuteSwap exec params
      = ⟨false, 0, 0, [], "cannot swap asset to itself"⟩
    ∧ Router.ComputeRoute exec params
      = ⟨false, 0, 0, [], "cannot swap asset to itself"⟩ := by
  have he : Router.ExecuteSwap exec params
      = ⟨false, 0, 0, [], "cannot swap asset to itself"⟩ := by
    unfold Router.ExecuteSwap
    rw [if_pos h]
  exact ⟨he, he⟩

/-- C8 witness: a concrete HBD-to-HBD request fails with the same-asset
error under an always-succeeding executor. -/
theorem C8_same_asset_swap_rejected_witness :
    Router.ExecuteSwap (fun _ _ _ => none)
        ⟨"alice", 100, "HBD", "HBD", 0, 0, ⟨0, 0⟩, "", 0⟩
      = ⟨false, 0, 0, [], "cannot swap asset to itself"⟩
    ∧ Router.ComputeRoute (fun _ _ _ => none)
        ⟨"alice", 100, "HBD", "HBD", 0, 0, ⟨0, 0⟩, "", 0⟩
      = ⟨false, 0, 0, [], "cannot swap asset to itself"⟩ :=
  C8_same_asset_swap_rejected _ _ rfl

/-- C5 amended: for every pool state, `queryRichList` returns the pool's
positions sorted by amount descending (the result of the source's in-place
exchange sort — deterministic for a fixed input state, but ties keep an
order that is not user-ascending, see the counterexample), sliced to
`[offset, offset+limit)`; an offset at or past the number of positions
yields an empty result; and a repeated call returns the identical result
(the sorted stored list is a fixed point of the sort). -/
theorem C5_richlist_ordering (dm : Indexer.DexReadModel) (pid : String)
    (off lim : ℕ) (ps : List Indexer.LiquidityPosition)
    (h : Indexer.assocGet dm.positions pid = some ps) :
    (Indexer.QueryRichList dm pid off lim).2
        = ((Indexer.exchangeSort ps).drop off).take lim
    ∧ List.Pairwise (fun a b => b.Amount ≤ a.Amount)
        (Indexer.QueryRichList dm pid off lim).2
    ∧ (ps.length ≤ off → (Indexer.QueryRichList dm pid off lim).2 = [])
    ∧ (Indexer.QueryRichList (Indexer.QueryRichList dm pid off lim).1 pid off lim).2
        = (Indexer.QueryRichList dm pid off lim).2 := by
  have hlen : (Indexer.exchangeSort ps).length = ps.length :=
    (Indexer.exchangeSort_perm ps).length_eq
  have hq : Indexer.QueryRichList dm pid off lim
      = if (Indexer.exchangeSort ps).length ≤ off
        then ({ dm with positions := Indexer.assocSet dm.positions pid (Indexer.exchangeSort ps) }, [])
        else ({ dm with positions := Indexer.assocSet dm.positions pid (Indexer.exchangeSort ps) },
          ((Indexer.exchangeSort ps).take (min (off + lim) (Indexer.exchangeSort ps).length)).drop off) := by
    simp only [Indexer.QueryRichList, h]
  have hfst : (Indexer.QueryRichList dm pid off lim).1
      = { dm with positions := Indexer.assocSet dm.positions pid (Indexer.exchangeSort ps) } := by
    rw [hq]
    split
    · rfl
    · rfl
  have hsnd : (Indexer.QueryRichList dm pid off lim).2
      = ((Indexer.exchangeSort ps).drop off).take lim := by
    rw [hq]
    by_cases hoff : (Indexer.exchangeSort ps).length ≤ off
    · rw [if_pos hoff]
      rw [List.drop_eq_nil_of_le hoff]
      simp
    · rw [if_neg hoff]
      show ((Indexer.exchangeSort ps).take
          (min (off + lim) (Indexer.exchangeSort ps).length)).drop off = _
      rw [List.drop_take]
      have hmin : min (off + lim) (Indexer.exchangeSort ps).length - off
          = min lim ((Indexer.exchangeSort ps).drop off).length := by
        rw [List.length_drop]
        omega
      rw [hmin, Indexer.take_min_length]
  refine ⟨hsnd, ?_, ?_, ?_⟩
  · rw [hsnd]
    exact ((Indexer.exchangeSort_sorted ps).sublist
      (List.Sublist.trans (List.take_sublist _ _) (List.drop_sublist _ _)))
  · intro hps
    rw [hsnd, List.drop_eq_nil_of_le (by omega)]
    simp
  · rw [hfst]
    have hsort2 : Indexer.exchangeSort (Indexer.exchangeSort ps)
        = Indexer.exchangeSort ps :=
      Indexer.exchangeSort_of_sorted _ (Indexer.exchangeSort_sorted ps)
    have h2get : Indexer.assocGet ({ dm with
          positions := Indexer.assocSet dm.positions pid (Indexer.exchangeSort ps) } :
          Indexer.DexReadModel).positions pid
        = some (Indexer.exchangeSort ps) :=
      Indexer.assocGet_assocSet_self _ _ _
    conv_rhs => rw [hq]
    simp only [Indexer.QueryRichList, h2get, hsort2]
    by_cases hoff : (Indexer.exchangeSort ps).length ≤ off
    · rw [if_pos hoff, if_pos hoff]
    · rw [if_neg hoff, if_neg hoff]

/-- C5 witness: on the concrete two-position pool the rich list is the
sorted slice, is sorted descending, and repeats identically. -/
theorem C5_richlist_ordering_witness :
    Indexer.assocGet Indexer.dmAsc.positions "p"
      = some [⟨"b", "p", 50, ⟨4691249611844266, -47⟩⟩,
              ⟨"a", "p", 100, ⟨4691249611844266, -46⟩⟩]
    ∧ (Indexer.QueryRichList Indexer.dmAsc "p" 0 10).2
        = ((Indexer.exchangeSort
            [⟨"b", "p", 50, ⟨4691249611844266, -47⟩⟩,
             ⟨"a", "p", 100, ⟨4691249611844266, -46⟩⟩]).drop 0).take 10
    ∧ List.Pairwise (fun a b => b.Amount ≤ a.Amount)
        (Indexer.QueryRichList Indexer.dmAsc "p" 0 10).2
    ∧ (Indexer.QueryRichList (Indexer.QueryRichList Indexer.dmAsc "p" 0 10).1
          "p" 0 10).2
        = (Indexer.QueryRichList Indexer.dmAsc "p" 0 10).2 := by
  have hget : Indexer.assocGet Indexer.dmAsc.positions "p"
      = some [⟨"b", "p", 50, ⟨4691249611844266, -47⟩⟩,
              ⟨"a", "p", 100, ⟨4691249611844266, -46⟩⟩] := by decide
  have h := C5_richlist_ordering Indexer.dmAsc "p" 0 10 _ hget
  exact ⟨hget, h.1, h.2.1, h.2.2.2⟩

/-- C1: the claim says a `liquidity_removed` or `swap_executed` event may
never drive a reserve below zero — the update must be rejected or clamped to
zero rather than wrapping around the unsigned domain. The code does neither:
evaluating the handler on a pool with zero reserves, withdrawing 5 units of
asset0 and then swapping 7 units of asset1 out leaves the reserves at
`2 ^ 64 - 5` and `2 ^ 64 - 7` — the `uint64` subtraction wrapped. -/
theorem C1_reserve_underflow_wraps :
    ((Indexer.assocGet (Indexer.applyEvents Indexer.emptyModel
        [Indexer.exPool, Indexer.exRemove, Indexer.exSwapDir]).pools "p").map
      (fun pool => (pool.Reserve0, pool.Reserve1)))
      = some (2 ^ 64 - 5, 2 ^ 64 - 7) := by
  decide

/-- C2 counterexample: the claimed invariant — the amounts of a pool's
recorded positions always sum to its `totalSupply` — fails on the code: a
`liquidity_added` event with an empty user raises `totalSupply` to 10 while
recording no position, so the sum stays 0. -/
theorem C2_counterexample :
    ((Indexer.assocGet (Indexer.applyEvents Indexer.emptyModel
        [Indexer.exPool, Indexer.exAddNoUser]).pools "p").map
      Indexer.PoolInfo.TotalSupply) = some 10
    ∧ Indexer.sumAmounts (Indexer.positionsOf
        (Indexer.applyEvents Indexer.emptyModel
          [Indexer.exPool, Indexer.exAddNoUser]) "p") = 0 := by
  decide

/-- C4: the claim says the fee conversion (decimal percent to basis points
by multiplying by 100) is exact for every fee that is a whole number of
basis points, rounded rather than truncated. Evaluating the exact binary64
semantics of `uint64(fee * 100)`: the example tiers 0.08, 0.30 and 0.05
convert exactly, but 0.29 — a whole 29 basis points — converts to 28,
because `float64(0.29) * 100 = 28.999999999999996` and Go's conversion
truncates. The code loses a basis point where the claim requires exactness. -/
theorem C4_fee_conversion_drops_basis_point :
    Router.feeToBps (Router.jsonF64 8 2) = 8
    ∧ Router.feeToBps (Router.jsonF64 30 2) = 30
    ∧ Router.feeToBps (Router.jsonF64 5 2) = 5
    ∧ Router.feeToBps (Router.jsonF64 29 2) = 28
    ∧ (Router.convertIndexerPool
        ⟨"1", "HBD", "HIVE", 0, 0, Router.jsonF64 29 2, 0⟩).Fee = 28 := by
  decide

/-- C5 counterexample: the claim says rich-list ties are broken by user
identifier ascending. On a pool with equal positions stored in order
`b`, `a` (each 100 units, share 50.0), `queryRichList` returns them in
stored order `b`, `a` — not the user-ascending order `a`, `b` the claim
predicts (the in-place exchange sort never swaps equal amounts here). -/
theorem C5_counterexample :
    (Indexer.QueryRichList Indexer.dmTie "p" 0 2).2
      = [⟨"b", "p", 100, Indexer.shareFifty⟩, ⟨"a", "p", 100, Indexer.shareFifty⟩]
    ∧ (Indexer.QueryRichList Indexer.dmTie "p" 0 2).2
      ≠ [⟨"a", "p", 100, Indexer.shareFifty⟩, ⟨"b", "p", 100, Indexer.shareFifty⟩] := by
  decide

/-- C7 counterexample: the claim says an event of the DEX router contract
with an unknown method is a complete no-op, with no appended transaction
record. Evaluating the handler on such an event: it returns success and
appends one blank-typed transaction record (the switch has no default, and
the append after the switch runs unconditionally). -/
theorem C7_counterexample :
    Indexer.HandleEvent Indexer.emptyModel Indexer.exBogus
      = some ⟨[], [⟨"t9", "", "", "", 9, "", .blank⟩], []⟩ := by
  decide

/-- C9: the claim says no query mutates the ledger's internal state,
including the stored order of a pool's position list. `QueryRichList` sorts
the slice taken from the positions map in place, so on a pool whose
positions are stored in ascending amount order the stored list afterwards
differs from (though remains a permutation of) the list before, while pools
and transactions are untouched. The code mutates reader state under a read
lock where the claim requires queries to leave state identical. -/
theorem C9_richlist_mutates_ledger :
    Indexer.positionsOf (Indexer.QueryRichList Indexer.dmAsc "p" 0 10).1 "p"
      ≠ Indexer.positionsOf Indexer.dmAsc "p"
    ∧ List.Perm
        (Indexer.positionsOf (Indexer.QueryRichList Indexer.dmAsc "p" 0 10).1 "p")
        (Indexer.positionsOf Indexer.dmAsc "p")
    ∧ (Indexer.QueryRichList Indexer.dmAsc "p" 0 10).1.pools = Indexer.dmAsc.pools
    ∧ (Indexer.QueryRichList Indexer.dmAsc "p" 0 10).1.transactions
      = Indexer.dmAsc.transactions := by
  decide
